import Mathlib

/-!
Verification of the result-combination pipeline of the shoutcast-search
repository (src/shoutcast_search/shoutcast_search.py): the sort-rule
compiler _generate_list_sorters, the numeric-expression filter compiler
_expression_param, and the search function (accumulation over a provider,
filtering, ordering, sort rules, limit).

Modelling conventions:
 * A station record is the dict built from XML attributes.  Every consumer
   of the br and lc fields converts them with int(), so they are embedded
   as Int directly; the string fields stay strings.
 * Python str.upper is embedded as an ASCII character map; the substring
   test (the Python in operator) is an explicit executable containment
   check on character lists.
 * Python list.sort / sorted with a key and a reverse flag is a stable
   sort; it is embedded with List.mergeSort, whose stability we use.
 * random.shuffle is nondeterministic, so every place that shuffles takes
   an explicit shuffle function as a parameter.
 * argparser.error aborts the program, embedded as Except.error.
-/

namespace ShoutcastSearch

/-- One station record, as produced by the provider.  Fields mirror the
keys of the dicts in shoutcast_search.py: id, name, genre, ct (current
track), br (bitrate), lc (listener count), mt (mime type). -/
structure Station where
  id : String
  name : String
  genre : String
  ct : String
  br : Int
  lc : Int
  mt : String
deriving DecidableEq, Repr

/-- Python str.upper, restricted to the ASCII model of strings used here. -/
def pyUpper (s : String) : String := String.map Char.toUpper s

/-- Does the character list start with the given character list?  (Used to
embed the Python substring operator.) -/
def startsWith : List Char → List Char → Bool
  | [], _ => true
  | _ :: _, [] => false
  | a :: as, b :: bs => a = b && startsWith as bs

/-- Containment of one character list in another: the Python expression
needle in haystack for strings. -/
def hasSub (needle : List Char) : List Char → Bool
  | [] => startsWith needle []
  | c :: rest => startsWith needle (c :: rest) || hasSub needle rest

/-- The Python expression needle in haystack on strings. -/
def pyIn (needle haystack : String) : Bool := hasSub needle.toList haystack.toList

/-- Python sorted(list, key=lambda a: int(a[field]), reverse=descending):
a stable sort by the integer key, descending when reverse is true.
Python's sort is stable also with reverse=True (ties keep their original
relative order), which the mergeSort comparator below reproduces. -/
def pySorted (key : Station → Int) (reverse : Bool) (l : List Station) : List Station :=
  if reverse then l.mergeSort (fun a b => decide (key b ≤ key a))
  else l.mergeSort (fun a b => decide (key a ≤ key b))

/-! ## Sort-rule compiler (_generate_list_sorters) -/

/-- The two sortable fields of the mini-language: b (bitrate) and
l (listener count). -/
inductive SField where
  | br
  | lc
deriving DecidableEq, Repr

/-- The integer key a field sort reads, int(a[field]) in the source. -/
def fieldKey : SField → Station → Int
  | .br, a => a.br
  | .lc, a => a.lc

/-- One emitted unit of the scan in _generate_list_sorters.  A truncate
step records the literal parsed at that step; this literal is what the
description string shows.  (The runtime behaviour of the truncate closures
is modelled separately, see finalTruncValue and stepFn.) -/
inductive Step where
  | sort (field : SField) (descending : Bool)
  | random
  | truncate (n : Nat)
deriving DecidableEq, Repr

/-- The two failure modes of the pattern scan, raised through
argparser.error in the source. -/
inductive SorterError where
  | invalidSorter (c : Char)
  | missingNumber
deriving DecidableEq, Repr

/-- Numeric value of one ASCII digit. -/
def digitVal (c : Char) : Nat := c.toNat - '0'.toNat

/-- Python int() on a non-empty string of decimal digits (the variable
number built up by the inner while loop of the scan). -/
def digitsVal (ds : List Char) : Nat := ds.foldl (fun a c => 10 * a + digitVal c) 0

/-- The character scan of _generate_list_sorters.  The while loop walks
the pattern left to right carrying the mutable flag sort_descending
(initially True, set to False by a caret and never reset); on n it
consumes the contiguous run of following digits as the truncation
literal.  Errors mirror the two argparser.error calls. -/
def scanSorters (sortDescending : Bool) : List Char → Except SorterError (List Step)
  | [] => .ok []
  | c :: rest =>
    if c = '^' then scanSorters false rest
    else if c = 'b' then
      (scanSorters sortDescending rest).map (fun s => .sort .br sortDescending :: s)
    else if c = 'l' then
      (scanSorters sortDescending rest).map (fun s => .sort .lc sortDescending :: s)
    else if c = 'r' then
      (scanSorters sortDescending rest).map (fun s => .random :: s)
    else if c = 'n' then
      let ds := rest.takeWhile (fun d => d.isDigit)
      if ds = [] then .error .missingNumber
      else
        (scanSorters sortDescending (rest.dropWhile (fun d => d.isDigit))).map
          (fun s => .truncate (digitsVal ds) :: s)
    else .error (.invalidSorter c)
termination_by cs => cs.length
decreasing_by
  · simp
  · simp
  · simp
  · simp
  · have := (List.dropWhile_sublist (fun d : Char => d.isDigit) (l := rest)).length_le
    simp
    omega

/-- The description string attached to each emitted step:
_filter_description for field sorts, the literals for r and n. -/
def describeStep : Step → String
  | .sort .br d => "bitrate " ++ (if d then "desc" else "asc")
  | .sort .lc d => "listeners " ++ (if d then "desc" else "asc")
  | .random => "random order"
  | .truncate n => "top " ++ toString n

/-- The final content of the local variable value of
_generate_list_sorters: the literal of the last n step of the pattern
(0, unused, when there is none).  The Python truncate closures
lambda list: list[:value] capture the variable value itself, not its
value at creation time, so when they run every one of them reads this
final content. -/
def finalTruncValue (steps : List Step) : Nat :=
  steps.foldl (fun v s => match s with | .truncate n => n | _ => v) 0

/-- The runtime function of one emitted step.  cell is the final content
of the shared variable value (see finalTruncValue): every truncate
closure truncates to cell, not to its own parsed literal. -/
def stepFn (shuffle : List Station → List Station) (cell : Nat) :
    Step → List Station → List Station
  | .sort f d => pySorted (fieldKey f) d
  | .random => shuffle
  | .truncate _ => fun l => l.take cell

/-- _generate_list_sorters: scan the pattern (default argument 'l', as in
the source) and return the list of sorter functions together with the
parallel list of description strings.  shuffle stands in for
random.shuffle inside the r step. -/
def generate_list_sorters (shuffle : List Station → List Station)
    (pattern : String := "l") :
    Except SorterError (List (List Station → List Station) × List String) :=
  (scanSorters true pattern.toList).map fun steps =>
    (steps.map (stepFn shuffle (finalTruncValue steps)), steps.map describeStep)

/-- The description list of the compiled pattern (the second component of
_generate_list_sorters' result; it does not depend on the shuffle). -/
def descriptionsOf (pattern : String) : Except SorterError (List String) :=
  (scanSorters true pattern.toList).map (fun steps => steps.map describeStep)

/-- Boolean success projection of an Except value. -/
def exceptOk {ε α : Type} : Except ε α → Bool
  | .ok _ => true
  | .error _ => false

/-- Did the scan succeed on this pattern? -/
def scanOk (cs : List Char) : Bool := exceptOk (scanSorters true cs)

/-! Spec-level predicates on patterns, used to state claim C9.  They word
the two failure conditions of the claim directly, independently of the
scan. -/

/-- The pattern contains a character that is not a caret, b, l, r, n, or
one of the digits consumed by an n (i.e. part of the contiguous digit run
immediately following an n). -/
def hasInvalidChar : List Char → Bool
  | [] => false
  | c :: rest =>
    if c = '^' || c = 'b' || c = 'l' || c = 'r' then hasInvalidChar rest
    else if c = 'n' then hasInvalidChar (rest.dropWhile (fun d => d.isDigit))
    else true
termination_by cs => cs.length
decreasing_by
  · simp
  · have := (List.dropWhile_sublist (fun d : Char => d.isDigit) (l := rest)).length_le
    simp
    omega

/-- Is the next character missing or not a decimal digit?  (Checked right
after an n.) -/
def nextNotDigit : List Char → Bool
  | [] => true
  | d :: _ => !d.isDigit

/-- Some occurrence of n in the pattern is not immediately followed by a
decimal digit. -/
def hasBareN : List Char → Bool
  | [] => false
  | c :: rest =>
    if c = 'n' then nextNotDigit rest || hasBareN rest
    else hasBareN rest

/-! ## Numeric expression filters (_expression_param) -/

/-- The single failure mode of _expression_param (argparser.error
'invalid expression'). -/
inductive ExprError where
  | invalidExpression
deriving DecidableEq, Repr

/-- The regular expression of _expression_param: an optional leading
=, > or <, then one or more decimal digits, and nothing else. -/
def exprMatch : List Char → Bool
  | [] => false
  | c :: rest =>
    if c = '=' || c = '>' || c = '<' then !rest.isEmpty && rest.all (fun d => d.isDigit)
    else (c :: rest).all (fun d => d.isDigit)

/-- Python value.strip(c): remove every leading and every trailing
occurrence of the character c. -/
def pyStripChar (c : Char) (s : List Char) : List Char :=
  ((s.dropWhile (fun x => x = c)).reverse.dropWhile (fun x => x = c)).reverse

/-- _expression_param.  An empty value yields the accept-everything
predicate; a value failing the regular expression aborts; otherwise the
first character selects strictly-greater, strictly-less or equality
against the stripped decimal literal.  The record fields the predicates
are applied to are already integers in this embedding, so the int(x)
conversion of the source is the identity. -/
def expression_param (value : String) : Except ExprError (Int → Bool) :=
  let s := value.toList
  if s = [] then .ok (fun _ => true)
  else if !exprMatch s then .error .invalidExpression
  else if s.head? = some '>' then
    .ok (fun x => decide ((digitsVal (pyStripChar '>' s) : Int) < x))
  else if s.head? = some '<' then
    .ok (fun x => decide (x < (digitsVal (pyStripChar '<' s) : Int)))
  else
    .ok (fun x => decide (x = (digitsVal (pyStripChar '=' s) : Int)))

/-! ## Accumulation (search, lines 123-145) -/

/-- The query parameter dict handed to _retrieve_search_results.  Only
the keys mt, genre and search are ever set by the search function; a
missing key is none.  searchTerm is the dict key named search. -/
structure QueryParams where
  mt : Option String
  genre : Option String
  searchTerm : Option String
deriving DecidableEq, Repr

/-- The parameters of the single default query: genre=Top500 plus the
mime type when present. -/
def topQuery (mt : Option String) : QueryParams := ⟨mt, some "Top500", none⟩

/-- The parameters of one keyword query: search=k plus the mime type when
present (opt_dict.update({'search': k}) overwrites search each time). -/
def kwQuery (mt : Option String) (k : String) : QueryParams := ⟨mt, none, some k⟩

/-- The keyword loop of search, instrumented with the list of issued
queries.  Each iteration fetches one keyword's results, appends the rows
whose id is not among the ids accumulated by previous iterations
(known_ids is recomputed from results after each iteration, so rows of
the current response are only checked against earlier iterations), and
logs the query. -/
def accumulateLoop (fetch : QueryParams → List Station) (mt : Option String) :
    List String → List Station × List QueryParams → List Station × List QueryParams
  | [], acc => acc
  | k :: ks, (results, log) =>
    let rows := fetch (kwQuery mt k)
    let known := results.map (fun r => r.id)
    accumulateLoop fetch mt ks
      (results ++ rows.filter (fun row => !known.contains row.id), log ++ [kwQuery mt k])

/-- The accumulation stage of search: with no keywords a single Top500
query, otherwise the keyword loop.  Returns the accumulated records and
the list of queries issued, in order. -/
def accumulate (fetch : QueryParams → List Station) (keywords : List String)
    (mt : Option String) : List Station × List QueryParams :=
  if keywords = [] then (fetch (topQuery mt), [topQuery mt])
  else accumulateLoop fetch mt keywords ([], [])

/-- Modelled from the spec (section 4.2 step 4), for comparison with the
code: the accumulator as the spec words it, with an explicit known-id set
that is updated after each query; each query appends the returned records
whose id is not already in the set. -/
def accumulateSpec (fetch : QueryParams → List Station) (mt : Option String) :
    List String → List Station → List String → List Station
  | [], acc, _ => acc
  | k :: ks, acc, known =>
    let rows := (fetch (kwQuery mt k)).filter (fun row => !known.contains row.id)
    accumulateSpec fetch mt ks (acc ++ rows) (known ++ rows.map (fun r => r.id))

/-! ## Filtering stages (search, lines 147-163) -/

/-- The space-joined concatenation of name, genre and current track used
by the keyword filter: '{0} {1} {2}'.format(...). -/
def joinFields (r : Station) : String := r.name ++ " " ++ r.genre ++ " " ++ r.ct

/-- The two numeric filters: keep records whose bitrate and listener
count the predicates accept, in that order. -/
def numericFilter (bitrate_fn listeners_fn : Int → Bool) (results : List Station) :
    List Station :=
  (results.filter (fun r => bitrate_fn r.br)).filter (fun r => listeners_fn r.lc)

/-- One of the three per-field for loops: for each phrase in the list,
keep the records whose field (read by get) contains the phrase after
upper-casing both. -/
def fieldFilter (get : Station → String) (phrases : List String)
    (results : List Station) : List Station :=
  phrases.foldl (fun rs s => rs.filter (fun r => pyIn (pyUpper s) (pyUpper (get r)))) results

/-- The final for loop: for each keyword, keep the records whose
space-joined name, genre and current track contain it after upper-casing
both. -/
def keywordFilter (keywords : List String) (results : List Station) : List Station :=
  keywords.foldl
    (fun rs k => rs.filter (fun r => pyIn (pyUpper k) (pyUpper (joinFields r)))) results

/-- All filtering stages of search, in source order: bitrate, listeners,
station-name phrases, genre phrases, song phrases, combined keywords. -/
def filter_results (bitrate_fn listeners_fn : Int → Bool)
    (station genre song keywords : List String) (results : List Station) : List Station :=
  keywordFilter keywords
    (fieldFilter (fun r => r.ct) song
      (fieldFilter (fun r => r.genre) genre
        (fieldFilter (fun r => r.name) station
          (numericFilter bitrate_fn listeners_fn results))))

/-- The record-level conjunction the filtering stages implement, used to
state claim C6. -/
def survives (bitrate_fn listeners_fn : Int → Bool)
    (station genre song keywords : List String) (r : Station) : Bool :=
  bitrate_fn r.br && listeners_fn r.lc &&
  station.all (fun s => pyIn (pyUpper s) (pyUpper r.name)) &&
  genre.all (fun g => pyIn (pyUpper g) (pyUpper r.genre)) &&
  song.all (fun s => pyIn (pyUpper s) (pyUpper r.ct)) &&
  keywords.all (fun k => pyIn (pyUpper k) (pyUpper (joinFields r)))

/-! ## The full search pipeline (lines 123-177) -/

/-- search: accumulate over the provider, filter, order (shuffle when
randomize, else stable sort by listener count descending), apply the
sorter functions in order, and truncate to limit when limit is
positive. -/
def search (fetch : QueryParams → List Station)
    (searchKw station genre song : List String)
    (bitrate_fn listeners_fn : Int → Bool)
    (mime_type : String) (limit : Nat) (randomize : Bool)
    (shuffle : List Station → List Station)
    (sorters : List (List Station → List Station)) : List Station :=
  let keywords := searchKw ++ station ++ genre ++ song
  let mt : Option String := if mime_type = "" then none else some mime_type
  let results := (accumulate fetch keywords mt).1
  let results := filter_results bitrate_fn listeners_fn station genre song keywords results
  let results := if randomize then shuffle results else pySorted (fun r => r.lc) true results
  let results := sorters.foldl (fun rs m => m rs) results
  if 0 < limit then results.take limit else results

/-! ## Fixture stations for concrete evaluations -/

/-- Fixture: id 1, bitrate 2, 5 listeners. -/
def stA : Station := ⟨"1", "StationA", "Ambient", "trackA", 2, 5, "audio/mpeg"⟩

/-- Fixture: id 2, bitrate 1, 3 listeners. -/
def stB : Station := ⟨"2", "StationB", "Blues", "trackB", 1, 3, "audio/mpeg"⟩

/-- Fixture: id 3, bitrate 3, 7 listeners. -/
def stC : Station := ⟨"3", "StationC", "Country", "trackC", 3, 7, "audio/mpeg"⟩

/-- Fixture: id 4, bitrate 4, 1 listener. -/
def stD : Station := ⟨"4", "StationD", "Dub", "trackD", 4, 1, "audio/mpeg"⟩

/-- Fixture with the same id as stA but different content. -/
def stA2 : Station := ⟨"1", "StationAbis", "Acid", "trackA2", 8, 9, "audio/aacp"⟩

/-! ## Helper lemmas -/

/-- A stable sort by an integer key leaves the elements of each key class
in their original relative order: filtering the sorted list down to one
key value gives the same list as filtering the input. -/
theorem mergeSort_filter_key {α : Type} (key : α → Int) (le : α → α → Bool)
    (hle : ∀ a b, key a = key b → le a b = true)
    (trans : ∀ (a b c : α), le a b → le b c → le a c)
    (total : ∀ (a b : α), le a b || le b a)
    (l : List α) (c : Int) :
    (l.mergeSort le).filter (fun r => decide (key r = c)) =
      l.filter (fun r => decide (key r = c)) := by
  set p : α → Bool := fun r => decide (key r = c) with hp
  have hmem : ∀ a ∈ l.filter p, key a = c := by
    intro a ha
    have := List.of_mem_filter ha
    simpa [hp] using this
  have hpair : (l.filter p).Pairwise (fun a b => le a b) := by
    refine List.pairwise_of_forall_mem_list ?_
    intro a ha b hb
    exact hle a b ((hmem a ha).trans (hmem b hb).symm)
  have hsub : List.Sublist (l.filter p) (l.mergeSort le) :=
    List.sublist_mergeSort trans total hpair (List.filter_sublist l)
  have h1 : List.Sublist (l.filter p) ((l.mergeSort le).filter p) := by
    have h2 := hsub.filter p
    have h3 : (l.filter p).filter p = l.filter p := by
      rw [List.filter_filter]
      exact List.filter_congr (fun a _ => Bool.and_self (p a))
    rwa [h3] at h2
  have hlen : ((l.mergeSort le).filter p).length = (l.filter p).length :=
    ((List.mergeSort_perm l le).filter p).length_eq
  exact (h1.eq_of_length hlen.symm).symm

/-- pySorted is a permutation of its input. -/
theorem pySorted_perm (key : Station → Int) (reverse : Bool) (l : List Station) :
    (pySorted key reverse l).Perm l := by
  unfold pySorted
  by_cases h : reverse <;> simp [h, List.mergeSort_perm]

/-- The descending pySorted output is sorted: the key never increases
along the list. -/
theorem pySorted_desc_pairwise (key : Station → Int) (l : List Station) :
    (pySorted key true l).Pairwise (fun a b => key b ≤ key a) := by
  unfold pySorted
  simp only [if_pos]
  have := @List.sorted_mergeSort Station (fun a b : Station => decide (key b ≤ key a))
    (fun a b c hab hbc => by
      simp only [decide_eq_true_eq] at *
      exact le_trans hbc hab)
    (fun a b => by
      simp only [Bool.or_eq_true, decide_eq_true_eq]
      exact le_total (key b) (key a)) l
  exact this.imp (fun h => by simpa using h)

/-- The ascending pySorted output is sorted: the key never decreases
along the list. -/
theorem pySorted_asc_pairwise (key : Station → Int) (l : List Station) :
    (pySorted key false l).Pairwise (fun a b => key a ≤ key b) := by
  unfold pySorted
  simp only [Bool.false_eq_true, if_neg, not_false_iff]
  have := @List.sorted_mergeSort Station (fun a b : Station => decide (key a ≤ key b))
    (fun a b c hab hbc => by
      simp only [decide_eq_true_eq] at *
      exact le_trans hab hbc)
    (fun a b => by
      simp only [Bool.or_eq_true, decide_eq_true_eq]
      exact le_total (key a) (key b)) l
  exact this.imp (fun h => by simpa using h)

/-- Stability of pySorted, both directions: each key class keeps its
original relative order. -/
theorem pySorted_stable (key : Station → Int) (reverse : Bool) (l : List Station)
    (c : Int) :
    (pySorted key reverse l).filter (fun r => decide (key r = c)) =
      l.filter (fun r => decide (key r = c)) := by
  unfold pySorted
  by_cases h : reverse <;> simp only [h, if_pos, Bool.false_eq_true, if_neg, not_false_iff]
  · exact mergeSort_filter_key key _
      (fun a b hab => by simp [hab])
      (fun a b c hab hbc => by
        simp only [decide_eq_true_eq] at *
        exact le_trans hbc hab)
      (fun a b => by
        simp only [Bool.or_eq_true, decide_eq_true_eq]
        exact le_total (key b) (key a)) l c
  · exact mergeSort_filter_key key _
      (fun a b hab => by simp [hab])
      (fun a b c hab hbc => by
        simp only [decide_eq_true_eq] at *
        exact le_trans hab hbc)
      (fun a b => by
        simp only [Bool.or_eq_true, decide_eq_true_eq]
        exact le_total (key a) (key b)) l c

/-- A fold of filters over a list of criteria equals a single filter by
the conjunction over all criteria. -/
theorem foldl_filter {α β : Type} (q : β → α → Bool) :
    ∀ (ps : List β) (l : List α),
      ps.foldl (fun rs s => rs.filter (q s)) l =
        l.filter (fun r => ps.all (fun s => q s r))
  | [], l => by simp
  | s :: ps, l => by
    rw [List.foldl_cons, foldl_filter q ps (l.filter (q s)), List.filter_filter]
    refine List.filter_congr (fun a _ => ?_)
    simp [List.all_cons, Bool.and_comm]

/-- exceptOk of a mapped Except equals exceptOk of the original. -/
theorem exceptOk_map {ε α β : Type} (f : α → β) (e : Except ε α) :
    exceptOk (Except.map f e) = exceptOk e := by
  cases e <;> rfl

/-- Except.map is an error exactly when the original is, with the same
error. -/
theorem exceptMap_eq_error {ε α β : Type} (f : α → β) (e : Except ε α) (er : ε) :
    Except.map f e = .error er ↔ e = .error er := by
  cases e <;> simp [Except.map]

/-- The digit run after an n is empty exactly when the next character is
missing or not a digit. -/
theorem takeWhile_digits_nil_iff (rest : List Char) :
    (rest.takeWhile (fun d => d.isDigit) = []) ↔ nextNotDigit rest = true := by
  cases rest with
  | nil => simp [nextNotDigit]
  | cons d t => by_cases h : d.isDigit <;> simp [List.takeWhile_cons, h, nextNotDigit]

/-- Dropping a leading digit run does not change whether a bare n occurs:
digits are never the character n. -/
theorem hasBareN_dropWhile_digits : ∀ (rest : List Char),
    hasBareN (rest.dropWhile (fun d => d.isDigit)) = hasBareN rest
  | [] => rfl
  | d :: t => by
    by_cases h : d.isDigit
    · have hdn : ¬ (d = 'n') := by
        intro he
        rw [he] at h
        exact absurd h (by decide)
      rw [List.dropWhile_cons_of_pos (by simpa using h)]
      rw [hasBareN_dropWhile_digits t]
      simp [hasBareN, hdn]
    · rw [List.dropWhile_cons_of_neg (by simpa using h)]

/-- The scan succeeds exactly when the pattern has no invalid character
and no bare n, for any initial direction flag. -/
theorem scanSorters_ok_eq : ∀ (cs : List Char) (sd : Bool),
    exceptOk (scanSorters sd cs) = (!hasInvalidChar cs && !hasBareN cs)
  | [], sd => by simp [scanSorters, hasInvalidChar, hasBareN, exceptOk]
  | c :: rest, sd => by
    by_cases h1 : c = '^'
    · subst h1
      simpa [scanSorters, hasInvalidChar, hasBareN] using scanSorters_ok_eq rest false
    · by_cases h2 : c = 'b'
      · subst h2
        simpa [scanSorters, hasInvalidChar, hasBareN, exceptOk_map] using
          scanSorters_ok_eq rest sd
      · by_cases h3 : c = 'l'
        · subst h3
          simpa [scanSorters, hasInvalidChar, hasBareN, exceptOk_map] using
            scanSorters_ok_eq rest sd
        · by_cases h4 : c = 'r'
          · subst h4
            simpa [scanSorters, hasInvalidChar, hasBareN, exceptOk_map] using
              scanSorters_ok_eq rest sd
          · by_cases h5 : c = 'n'
            · subst h5
              by_cases hds : rest.takeWhile (fun d => d.isDigit) = []
              · have hnd : nextNotDigit rest = true :=
                  (takeWhile_digits_nil_iff rest).mp hds
                simp [scanSorters, hasInvalidChar, hasBareN, hds, hnd, exceptOk]
              · have hnd : nextNotDigit rest = false := by
                  cases hx : nextNotDigit rest
                  · rfl
                  · exact absurd ((takeWhile_digits_nil_iff rest).mpr hx) hds
                have ih := scanSorters_ok_eq (rest.dropWhile (fun d => d.isDigit)) sd
                have hb := hasBareN_dropWhile_digits rest
                simp [scanSorters, hasInvalidChar, hasBareN, hds, hnd, exceptOk_map,
                  ih, hb]
            · simp [scanSorters, hasInvalidChar, hasBareN, h1, h2, h3, h4, h5, exceptOk]
termination_by cs _ => cs.length
decreasing_by all_goals
  (have h9 := (List.dropWhile_sublist (fun d : Char => d.isDigit) (l := rest)).length_le
   simp only [List.length_cons] at *
   omega)

/-- When the scan reports an invalid sorter character, the pattern indeed
contains an invalid character, and the reported character occurs in the
pattern. -/
theorem scanSorters_error_invalid : ∀ (cs : List Char) (sd : Bool) (c : Char),
    scanSorters sd cs = .error (.invalidSorter c) →
      hasInvalidChar cs = true ∧ c ∈ cs
  | [], sd, c => by simp [scanSorters]
  | c0 :: rest, sd, c => by
    intro h
    by_cases h1 : c0 = '^'
    · subst h1
      simp only [scanSorters, reduceIte] at h
      have := scanSorters_error_invalid rest false c h
      simp only [hasInvalidChar]
      norm_num
      exact ⟨this.1, Or.inr this.2⟩
    · by_cases h2 : c0 = 'b'
      · subst h2
        simp [scanSorters, exceptMap_eq_error] at h
        have := scanSorters_error_invalid rest sd c h
        simp only [hasInvalidChar]
        norm_num
        exact ⟨this.1, Or.inr this.2⟩
      · by_cases h3 : c0 = 'l'
        · subst h3
          simp [scanSorters, exceptMap_eq_error] at h
          have := scanSorters_error_invalid rest sd c h
          simp only [hasInvalidChar]
          norm_num
          exact ⟨this.1, Or.inr this.2⟩
        · by_cases h4 : c0 = 'r'
          · subst h4
            simp [scanSorters, exceptMap_eq_error] at h
            have := scanSorters_error_invalid rest sd c h
            simp only [hasInvalidChar]
            norm_num
            exact ⟨this.1, Or.inr this.2⟩
          · by_cases h5 : c0 = 'n'
            · subst h5
              by_cases hds : rest.takeWhile (fun d => d.isDigit) = []
              · simp [scanSorters, hds] at h
              · simp [scanSorters, hds, exceptMap_eq_error] at h
                have := scanSorters_error_invalid
                  (rest.dropWhile (fun d => d.isDigit)) sd c h
                simp only [hasInvalidChar]
                norm_num
                refine ⟨this.1, Or.inr ?_⟩
                exact (List.dropWhile_sublist (fun d => d.isDigit)).subset this.2
            · simp only [scanSorters, h1, h2, h3, h4, h5, reduceIte,
                Except.error.injEq, SorterError.invalidSorter.injEq] at h
              simp [hasInvalidChar, h1, h2, h3, h4, h5, ← h]
termination_by cs _ _ => cs.length
decreasing_by all_goals
  (have h9 := (List.dropWhile_sublist (fun d : Char => d.isDigit) (l := rest)).length_le
   simp only [List.length_cons] at *
   omega)

/-- When the scan reports a missing truncation count, the pattern indeed
contains an n not immediately followed by a digit. -/
theorem scanSorters_error_missing : ∀ (cs : List Char) (sd : Bool),
    scanSorters sd cs = .error .missingNumber → hasBareN cs = true
  | [], sd => by simp [scanSorters]
  | c0 :: rest, sd => by
    intro h
    by_cases h1 : c0 = '^'
    · subst h1
      simp only [scanSorters, reduceIte] at h
      have := scanSorters_error_missing rest false h
      simp [hasBareN, this]
    · by_cases h2 : c0 = 'b'
      · subst h2
        simp [scanSorters, exceptMap_eq_error] at h
        have := scanSorters_error_missing rest sd h
        simp [hasBareN, this]
      · by_cases h3 : c0 = 'l'
        · subst h3
          simp [scanSorters, exceptMap_eq_error] at h
          have := scanSorters_error_missing rest sd h
          simp [hasBareN, this]
        · by_cases h4 : c0 = 'r'
          · subst h4
            simp [scanSorters, exceptMap_eq_error] at h
            have := scanSorters_error_missing rest sd h
            simp [hasBareN, this]
          · by_cases h5 : c0 = 'n'
            · subst h5
              by_cases hds : rest.takeWhile (fun d => d.isDigit) = []
              · have hnd : nextNotDigit rest = true :=
                  (takeWhile_digits_nil_iff rest).mp hds
                simp [hasBareN, hnd]
              · simp [scanSorters, hds, exceptMap_eq_error] at h
                have := scanSorters_error_missing
                  (rest.dropWhile (fun d => d.isDigit)) sd h
                rw [hasBareN_dropWhile_digits rest] at this
                simp [hasBareN, this]
            · simp [scanSorters, h1, h2, h3, h4, h5] at h
termination_by cs _ => cs.length
decreasing_by all_goals
  (have h9 := (List.dropWhile_sublist (fun d : Char => d.isDigit) (l := rest)).length_le
   simp only [List.length_cons] at *
   omega)

/-- The keyword loop issues exactly one query per keyword, in order, and
its result refines the spec-worded accumulator with an explicit known-id
set (the loop recomputes that set from the accumulated records). -/
theorem accumulateLoop_eq (fetch : QueryParams → List Station) (mt : Option String) :
    ∀ (ks : List String) (acc : List Station) (log : List QueryParams),
      accumulateLoop fetch mt ks (acc, log) =
        (accumulateSpec fetch mt ks acc (acc.map (fun r => r.id)),
         log ++ ks.map (kwQuery mt))
  | [], acc, log => by simp [accumulateLoop, accumulateSpec]
  | k :: ks, acc, log => by
    simp only [accumulateLoop, accumulateSpec]
    rw [accumulateLoop_eq fetch mt ks]
    rw [List.map_append]
    simp

/-- When every single provider response has pairwise-distinct ids, the
keyword loop preserves distinctness of the accumulated ids. -/
theorem accumulateLoop_nodup (fetch : QueryParams → List Station) (mt : Option String)
    (hf : ∀ p, ((fetch p).map (fun r => r.id)).Nodup) :
    ∀ (ks : List String) (acc : List Station) (log : List QueryParams),
      (acc.map (fun r => r.id)).Nodup →
      (((accumulateLoop fetch mt ks (acc, log)).1).map (fun r => r.id)).Nodup
  | [], acc, log => by
    intro h
    simpa [accumulateLoop] using h
  | k :: ks, acc, log => by
    intro h
    simp only [accumulateLoop]
    refine accumulateLoop_nodup fetch mt hf ks _ _ ?_
    rw [List.map_append]
    refine List.Nodup.append h ?_ ?_
    · refine ((hf (kwQuery mt k)).sublist ?_)
      exact (List.filter_sublist _).map _
    · intro x hx hy
      obtain ⟨r, hr, hrx⟩ := List.mem_map.mp hy
      have hcond := List.of_mem_filter hr
      simp only [Bool.not_eq_eq_eq_not, Bool.not_true] at hcond
      have : r.id ∉ acc.map (fun r => r.id) := by
        intro hmem
        have : (acc.map (fun r => r.id)).contains r.id = true := by
          simpa [List.contains, List.elem_iff] using hmem
        rw [this] at hcond
        exact absurd hcond (by simp)
      rw [hrx] at this
      exact absurd hx this

/-- Dropping leading copies of a non-digit character from an all-digit
list removes nothing. -/
theorem dropWhile_eq_self_of_digits (c : Char) (hc : c.isDigit = false) :
    ∀ (ds : List Char), ds.all (fun d => d.isDigit) = true →
      ds.dropWhile (fun x => x = c) = ds
  | [], _ => rfl
  | d :: t, h => by
    have hd : d.isDigit = true := by
      simp [List.all_cons] at h
      exact h.1
    have hdc : ¬ (d = c) := by
      intro he
      rw [he] at hd
      rw [hd] at hc
      exact absurd hc (by simp)
    rw [List.dropWhile_cons_of_neg (by simpa using hdc)]

/-- Python value.strip(c) on an all-digit string, with c not a digit,
returns the string unchanged. -/
theorem pyStripChar_digits (c : Char) (hc : c.isDigit = false) (ds : List Char)
    (h : ds.all (fun d => d.isDigit) = true) : pyStripChar c ds = ds := by
  unfold pyStripChar
  rw [dropWhile_eq_self_of_digits c hc ds h]
  rw [dropWhile_eq_self_of_digits c hc ds.reverse (by simpa using h)]
  exact List.reverse_reverse ds

/-! ## Claim theorems -/

/-- C1 (code_bug evaluation): on the pattern caret-b-l the compiled
descriptions are bitrate asc and listeners asc, and both compiled sorter
functions sort ascending: with stations stA (bitrate 2, 5 listeners) and
stB (bitrate 1, 3 listeners), each sorter maps [stA, stB] to [stB, stA].
The sort_descending flag is set by the caret and never reset after a step
is emitted, so the listener step is ascending, contradicting the claim
(and the source docstring), which say it is descending. -/
theorem c1_caret_direction_persists :
    descriptionsOf "^bl" = .ok ["bitrate asc", "listeners asc"] ∧
    (generate_list_sorters (fun l => l) "^bl").map
        (fun sd => sd.1.map (fun f => f [stA, stB])) =
      .ok [[stB, stA], [stB, stA]] := by
  constructor
  · simp [descriptionsOf, scanSorters, describeStep, Except.map]
  · simp [generate_list_sorters, scanSorters, stepFn, finalTruncValue, fieldKey,
      pySorted, Except.map, List.mergeSort, stA, stB]

/-- C2 (code_bug evaluation): the pattern n3-then-n1 compiles to the
descriptions top 3 and top 1, but both compiled truncate functions keep
exactly one element of a four-station list: the Python closures read the
shared variable value, whose final content is 1, so the first step does
not keep 3 elements as the claim states. -/
theorem c2_truncate_steps_share_last_literal :
    (generate_list_sorters (fun l => l) "n3n1").map
        (fun sd => (sd.1.map (fun f => f [stA, stB, stC, stD]), sd.2)) =
      .ok ([[stA], [stA]], ["top 3", "top 1"]) := by
  simp [generate_list_sorters, scanSorters, stepFn, finalTruncValue, describeStep,
    digitsVal, digitVal, Except.map]
  exact ⟨rfl, rfl⟩

/-- C4 counterexample: compiling the empty pattern yields an empty step
list and an empty description list, not the single listeners-desc step
the claim states. -/
theorem c4_empty_pattern_no_steps :
    descriptionsOf "" = .ok [] ∧
    (Except.ok ([] : List String) : Except SorterError (List String)) ≠
      Except.ok ["listeners desc"] := by
  constructor
  · simp [descriptionsOf, scanSorters, Except.map]
  · simp

/-- C4 (amended): compiling the pattern l yields exactly one step, which
stable-sorts by listener count descending, with description list
[listeners desc]; compiling the empty pattern yields no steps.  The
default value of the pattern parameter of generate_list_sorters is l, as
in the source. -/
theorem c4_pattern_l_single_listener_step :
    scanSorters true "l".toList = .ok [.sort .lc true] ∧
    descriptionsOf "l" = .ok ["listeners desc"] ∧
    scanSorters true "".toList = .ok [] ∧
    (∀ (sh : List Station → List Station) (rs : List Station),
      (generate_list_sorters sh "l").map (fun sd => sd.1.map (fun f => f rs)) =
        .ok [pySorted (fun r => r.lc) true rs]) ∧
    (∀ rs : List Station, (pySorted (fun r => r.lc) true rs).Perm rs) ∧
    (∀ rs : List Station,
      (pySorted (fun r => r.lc) true rs).Pairwise (fun a b => b.lc ≤ a.lc)) := by
  refine ⟨?_, ?_, ?_, ?_, ?_, ?_⟩
  · simp [scanSorters, Except.map]
  · simp [descriptionsOf, scanSorters, describeStep, Except.map]
  · simp [scanSorters]
  · intro sh rs
    simp [generate_list_sorters, scanSorters, stepFn, finalTruncValue, Except.map]
    rfl
  · exact fun rs => pySorted_perm _ true rs
  · exact fun rs => pySorted_desc_pairwise _ rs

/-- C9 counterexample: the pattern n-then-x contains the invalid
character x (not one of the five pattern characters nor a digit consumed
by an n), yet the scan fails with the missing-truncation-count error, not
with an invalid-sorter-character error citing x, because the scan reports
the first problem in left-to-right order and the bare n comes first. -/
theorem c9_first_error_counterexample :
    scanSorters true "nx".toList = .error .missingNumber ∧
    hasInvalidChar "nx".toList = true ∧
    scanSorters true "nx".toList ≠ .error (.invalidSorter 'x') := by
  refine ⟨?_, ?_, ?_⟩
  · simp [scanSorters]
  · simp [hasInvalidChar]
  · simp [scanSorters]

/-- C9 (amended): the scan succeeds exactly when the pattern has no
invalid character and every n is immediately followed by a digit; an
invalid-sorter-character error is only reported when the pattern contains
an invalid character (and the cited character occurs in the pattern); a
missing-truncation-count error is only reported when some n lacks a
following digit.  Success and the step sequence are deterministic because
the scan is a pure function. -/
theorem c9_scan_failure_characterization (pattern : String) :
    (scanOk pattern.toList =
      (!hasInvalidChar pattern.toList && !hasBareN pattern.toList)) ∧
    (∀ c, scanSorters true pattern.toList = .error (.invalidSorter c) →
      hasInvalidChar pattern.toList = true ∧ c ∈ pattern.toList) ∧
    (scanSorters true pattern.toList = .error .missingNumber →
      hasBareN pattern.toList = true) := by
  refine ⟨scanSorters_ok_eq _ true, ?_, ?_⟩
  · intro c h
    exact scanSorters_error_invalid _ true c h
  · intro h
    exact scanSorters_error_missing _ true h

/-- Witness for C9: on the pattern x the scan reports the invalid
character x, which the characterization turns into the spec-level facts;
on the pattern n it reports the missing count. -/
theorem c9_scan_failure_witness :
    (hasInvalidChar "x".toList = true ∧ 'x' ∈ "x".toList) ∧
    hasBareN "n".toList = true := by
  constructor
  · exact (c9_scan_failure_characterization "x").2.1 'x' (by simp [scanSorters])
  · exact (c9_scan_failure_characterization "n").2.2 (by simp [scanSorters])

/-- C10 (code_bug evaluation): on the pattern n2-then-n1 the sorter list
and description list have equal length two, but the first description,
top 2, does not describe the first sorter, which keeps only one element
of a three-station list (all truncate closures read the shared variable
value, whose final content is 1). -/
theorem c10_description_sorter_mismatch :
    (generate_list_sorters (fun l => l) "n2n1").map
        (fun sd => (sd.1.map (fun f => f [stA, stB, stC]), sd.2)) =
      .ok ([[stA], [stA]], ["top 2", "top 1"]) := by
  simp [generate_list_sorters, scanSorters, stepFn, finalTruncValue, describeStep,
    digitsVal, digitVal, Except.map]
  exact ⟨rfl, rfl⟩

/-- C3 counterexample: a single provider response that lists the same id
twice survives accumulation intact: the accumulated set for one keyword
contains the id 1 twice, so the accumulator itself does not enforce id
uniqueness within one response. -/
theorem c3_duplicate_in_one_response_kept :
    ((accumulate (fun _ => [stA, stA2]) ["a"] none).1).map (fun r => r.id) =
      ["1", "1"] ∧
    ¬ (["1", "1"] : List String).Nodup := by
  constructor
  · rfl
  · decide

/-- C3 (amended): deduplication happens only across queries: each query
response is filtered against the ids accumulated by earlier queries.
Hence, whenever every single provider response has pairwise-distinct ids,
the accumulated result set has pairwise-distinct ids (and a station
returned by several keyword queries appears once, from the first query
that listed it). -/
theorem c3_ids_nodup_across_queries (fetch : QueryParams → List Station)
    (keywords : List String) (mt : Option String)
    (hf : ∀ p, ((fetch p).map (fun r => r.id)).Nodup) :
    (((accumulate fetch keywords mt).1).map (fun r => r.id)).Nodup := by
  unfold accumulate
  by_cases h : keywords = []
  · rw [if_pos h]
    exact hf (topQuery mt)
  · rw [if_neg h]
    exact accumulateLoop_nodup fetch mt hf keywords [] [] (by simp)

/-- Witness for C3: a provider whose responses are [stA, stB] (ids 1 and
2) yields an accumulated set with distinct ids for two keywords. -/
theorem c3_ids_nodup_witness :
    (([stA, stB] : List Station).map (fun r => r.id)).Nodup ∧
    (((accumulate (fun _ => [stA, stB]) ["a", "b"] none).1).map
      (fun r => r.id)).Nodup := by
  constructor
  · decide
  · exact c3_ids_nodup_across_queries _ _ _ (fun p => by decide)

/-- C5: with an empty keyword list the accumulation stage issues exactly
the single Top500 query and returns its response unchanged; with a
non-empty list it issues exactly one query per keyword, in list order,
and its result equals the spec-worded accumulator that appends only
records with fresh ids and updates the known-id set after each query. -/
theorem c5_one_query_per_keyword (fetch : QueryParams → List Station)
    (keywords : List String) (mt : Option String) :
    (keywords = [] →
      accumulate fetch keywords mt = (fetch (topQuery mt), [topQuery mt])) ∧
    (keywords ≠ [] →
      (accumulate fetch keywords mt).2 = keywords.map (kwQuery mt) ∧
      (accumulate fetch keywords mt).1 = accumulateSpec fetch mt keywords [] []) := by
  constructor
  · intro h
    simp [accumulate, h]
  · intro h
    unfold accumulate
    rw [if_neg h, accumulateLoop_eq]
    simp

/-- Witness for C5: both branches at concrete inputs: no keywords gives
the single Top500 query; the keyword list [a] gives exactly the one
search query for a. -/
theorem c5_one_query_per_keyword_witness :
    accumulate (fun _ => [stA]) [] none = ([stA], [topQuery none]) ∧
    ((["a"] : List String) ≠ [] ∧
      (accumulate (fun _ => [stA]) ["a"] none).2 = ["a"].map (kwQuery none)) := by
  constructor
  · exact (c5_one_query_per_keyword (fun _ => [stA]) [] none).1 rfl
  · refine ⟨by decide, ?_⟩
    exact (((c5_one_query_per_keyword (fun _ => [stA]) ["a"] none).2) (by decide)).1

/-- C6: a record survives the filtering stages if and only if the
numeric predicates accept its bitrate and listener count, its name
contains every station phrase, its genre every genre phrase, its current
track every song phrase, and the space-joined name-genre-track contains
every combined keyword (all case-insensitively); the output is the
filter of the input by that conjunction, hence survivors keep their
original relative order (the output is a sublist of the input). -/
theorem c6_filter_conjunction (bitrate_fn listeners_fn : Int → Bool)
    (station genre song keywords : List String) (rs : List Station) :
    filter_results bitrate_fn listeners_fn station genre song keywords rs =
      rs.filter (survives bitrate_fn listeners_fn station genre song keywords) ∧
    (∀ r : Station,
      r ∈ filter_results bitrate_fn listeners_fn station genre song keywords rs ↔
        r ∈ rs ∧
          survives bitrate_fn listeners_fn station genre song keywords r = true) ∧
    List.Sublist
      (filter_results bitrate_fn listeners_fn station genre song keywords rs) rs := by
  have hmain : filter_results bitrate_fn listeners_fn station genre song keywords rs =
      rs.filter (survives bitrate_fn listeners_fn station genre song keywords) := by
    unfold filter_results keywordFilter fieldFilter numericFilter
    rw [foldl_filter, foldl_filter, foldl_filter, foldl_filter]
    rw [List.filter_filter, List.filter_filter, List.filter_filter,
      List.filter_filter, List.filter_filter]
    refine List.filter_congr (fun a _ => ?_)
    unfold survives
    cases h1 : bitrate_fn a.br <;> cases h2 : listeners_fn a.lc <;>
      cases h3 : station.all (fun s => pyIn (pyUpper s) (pyUpper a.name)) <;>
      cases h4 : genre.all (fun g => pyIn (pyUpper g) (pyUpper a.genre)) <;>
      cases h5 : song.all (fun s => pyIn (pyUpper s) (pyUpper a.ct)) <;>
      cases h6 : keywords.all (fun k => pyIn (pyUpper k) (pyUpper (joinFields a))) <;>
      simp [h1, h2, h3, h4, h5, h6]
  refine ⟨hmain, ?_, ?_⟩
  · intro r
    rw [hmain]
    simp [List.mem_filter]
  · rw [hmain]
    exact List.filter_sublist rs

/-- C7: with randomize false, search stable-sorts the filtered records by
listener count descending, applies the sorter functions in order to the
previous result, and finally truncates to limit exactly when limit is
positive (limit zero keeps everything); the base ordering is a
permutation, sorted with the listener count never increasing, and stable:
each class of equal listener counts keeps its original relative order. -/
theorem c7_order_sorters_limit (fetch : QueryParams → List Station)
    (searchKw station genre song : List String)
    (bitrate_fn listeners_fn : Int → Bool) (mime_type : String)
    (shuffle : List Station → List Station)
    (sorters : List (List Station → List Station)) (limit : Nat) :
    (limit = 0 →
      search fetch searchKw station genre song bitrate_fn listeners_fn mime_type
          limit false shuffle sorters =
        sorters.foldl (fun rs m => m rs)
          (pySorted (fun r => r.lc) true
            (filter_results bitrate_fn listeners_fn station genre song
              (searchKw ++ station ++ genre ++ song)
              (accumulate fetch (searchKw ++ station ++ genre ++ song)
                (if mime_type = "" then none else some mime_type)).1))) ∧
    (0 < limit →
      search fetch searchKw station genre song bitrate_fn listeners_fn mime_type
          limit false shuffle sorters =
        (sorters.foldl (fun rs m => m rs)
          (pySorted (fun r => r.lc) true
            (filter_results bitrate_fn listeners_fn station genre song
              (searchKw ++ station ++ genre ++ song)
              (accumulate fetch (searchKw ++ station ++ genre ++ song)
                (if mime_type = "" then none else some mime_type)).1))).take limit) ∧
    (∀ rs : List Station, (pySorted (fun r => r.lc) true rs).Perm rs) ∧
    (∀ rs : List Station,
      (pySorted (fun r => r.lc) true rs).Pairwise (fun a b => b.lc ≤ a.lc)) ∧
    (∀ (rs : List Station) (c : Int),
      (pySorted (fun r => r.lc) true rs).filter (fun r => decide (r.lc = c)) =
        rs.filter (fun r => decide (r.lc = c))) := by
  refine ⟨?_, ?_, ?_, ?_, ?_⟩
  · intro h
    subst h
    simp [search]
  · intro h
    unfold search
    rw [if_pos h]
    simp
  · exact fun rs => pySorted_perm _ true rs
  · exact fun rs => pySorted_desc_pairwise _ rs
  · exact fun rs c => pySorted_stable _ true rs c

/-- Witness for C7: with limit 1 and a two-station provider the search
result is the take-1 truncation of the sorter-applied base ordering. -/
theorem c7_order_sorters_limit_witness :
    (0 < 1) ∧
    search (fun _ => [stA, stB]) [] [] [] [] (fun _ => true) (fun _ => true) ""
        1 false (fun l => l) [] =
      (([] : List (List Station → List Station)).foldl (fun rs m => m rs)
        (pySorted (fun r => r.lc) true
          (filter_results (fun _ => true) (fun _ => true) [] [] []
            (([] : List String) ++ [] ++ [] ++ [])
            (accumulate (fun _ => [stA, stB]) (([] : List String) ++ [] ++ [] ++ [])
              (if ("" : String) = "" then none else some "")).1))).take 1 := by
  refine ⟨Nat.one_pos, ?_⟩
  exact (c7_order_sorters_limit (fun _ => [stA, stB]) [] [] [] [] (fun _ => true)
    (fun _ => true) "" (fun l => l) [] 1).2.1 Nat.one_pos

/-- C8: the empty filter string compiles to the accept-everything
predicate; a string of the form greater-than digits accepts exactly the
integers strictly greater than the literal, less-than strictly less,
equals or a bare number exactly the literal; and every non-empty string
failing the regular expression compiles to the invalid-expression
error. -/
theorem c8_expression_param_cases (value : String) (ds : List Char) :
    (expression_param "" = .ok (fun _ => true)) ∧
    (value.toList = '>' :: ds → ds ≠ [] → ds.all (fun d => d.isDigit) = true →
      ∃ p, expression_param value = .ok p ∧
        ∀ x : Int, p x = true ↔ (digitsVal ds : Int) < x) ∧
    (value.toList = '<' :: ds → ds ≠ [] → ds.all (fun d => d.isDigit) = true →
      ∃ p, expression_param value = .ok p ∧
        ∀ x : Int, p x = true ↔ x < (digitsVal ds : Int)) ∧
    (value.toList = '=' :: ds → ds ≠ [] → ds.all (fun d => d.isDigit) = true →
      ∃ p, expression_param value = .ok p ∧
        ∀ x : Int, p x = true ↔ x = (digitsVal ds : Int)) ∧
    (value.toList = ds → ds ≠ [] → ds.all (fun d => d.isDigit) = true →
      ∃ p, expression_param value = .ok p ∧
        ∀ x : Int, p x = true ↔ x = (digitsVal ds : Int)) ∧
    (value ≠ "" → exprMatch value.toList = false →
      expression_param value = .error .invalidExpression) := by
  refine ⟨rfl, ?_, ?_, ?_, ?_, ?_⟩
  · intro hv hne hall
    have hstrip : pyStripChar '>' ('>' :: ds) = ds := by
      unfold pyStripChar
      rw [List.dropWhile_cons_of_pos (by simp)]
      rw [dropWhile_eq_self_of_digits '>' (by decide) ds hall]
      rw [dropWhile_eq_self_of_digits '>' (by decide) ds.reverse (by simpa using hall)]
      exact List.reverse_reverse ds
    refine ⟨fun x => decide ((digitsVal ds : Int) < x), ?_, ?_⟩
    · unfold expression_param
      rw [hv]
      simp [exprMatch, hne, hall, hstrip]
    · intro x
      simp
  · intro hv hne hall
    have hstrip : pyStripChar '<' ('<' :: ds) = ds := by
      unfold pyStripChar
      rw [List.dropWhile_cons_of_pos (by simp)]
      rw [dropWhile_eq_self_of_digits '<' (by decide) ds hall]
      rw [dropWhile_eq_self_of_digits '<' (by decide) ds.reverse (by simpa using hall)]
      exact List.reverse_reverse ds
    refine ⟨fun x => decide (x < (digitsVal ds : Int)), ?_, ?_⟩
    · unfold expression_param
      rw [hv]
      simp [exprMatch, hne, hall, hstrip]
    · intro x
      simp
  · intro hv hne hall
    have hstrip : pyStripChar '=' ('=' :: ds) = ds := by
      unfold pyStripChar
      rw [List.dropWhile_cons_of_pos (by simp)]
      rw [dropWhile_eq_self_of_digits '=' (by decide) ds hall]
      rw [dropWhile_eq_self_of_digits '=' (by decide) ds.reverse (by simpa using hall)]
      exact List.reverse_reverse ds
    refine ⟨fun x => decide (x = (digitsVal ds : Int)), ?_, ?_⟩
    · unfold expression_param
      rw [hv]
      simp [exprMatch, hne, hall, hstrip]
    · intro x
      simp
  · intro hv hne hall
    obtain ⟨d, t, hd⟩ : ∃ d t, ds = d :: t := by
      cases ds with
      | nil => exact absurd rfl hne
      | cons d t => exact ⟨d, t, rfl⟩
    have hdd : d.isDigit = true := by
      rw [hd] at hall
      simp [List.all_cons] at hall
      exact hall.1
    have hne1 : ¬ (d = '=') := by
      intro he
      rw [he] at hdd
      exact absurd hdd (by decide)
    have hne2 : ¬ (d = '>') := by
      intro he
      rw [he] at hdd
      exact absurd hdd (by decide)
    have hne3 : ¬ (d = '<') := by
      intro he
      rw [he] at hdd
      exact absurd hdd (by decide)
    have hstrip : pyStripChar '=' ds = ds :=
      pyStripChar_digits '=' (by decide) ds hall
    refine ⟨fun x => decide (x = (digitsVal ds : Int)), ?_, ?_⟩
    · unfold expression_param
      rw [hv]
      have hm : exprMatch ds = true := by
        rw [hd]
        have hall2 := hall
        rw [hd] at hall2
        simpa [exprMatch, hne1, hne2, hne3] using hall2
      have hh1 : ds.head? ≠ some '>' := by
        rw [hd]
        simp [hne2]
      have hh2 : ds.head? ≠ some '<' := by
        rw [hd]
        simp [hne3]
      simp [hne, hm, hh1, hh2, hstrip]
    · intro x
      simp
  · intro hv hm
    have hs : value.toList ≠ [] := by
      intro h0
      refine hv ?_
      have : value.data = [] := by simpa [String.toList] using h0
      cases value
      simp_all
    unfold expression_param
    rw [if_neg hs, hm]
    simp

/-- Witness for C8: the filter string greater-than-50 accepts 51 and
rejects 50 and 49. -/
theorem c8_expression_param_witness :
    (expression_param ">50").map (fun p => (p 51, p 50, p 49)) =
      .ok (true, false, false) := by
  obtain ⟨p, hp, hiff⟩ :=
    (c8_expression_param_cases ">50" ['5', '0']).2.1 rfl (by decide) (by decide)
  rw [hp]
  have h51 : p 51 = true := (hiff 51).mpr (by decide)
  have h50 : p 50 = false := by
    cases h : p 50
    · rfl
    · exact absurd ((hiff 50).mp h) (by decide)
  have h49 : p 49 = false := by
    cases h : p 49
    · rfl
    · exact absurd ((hiff 49).mp h) (by decide)
  simp [Except.map, h51, h50, h49]

end ShoutcastSearch
